import Mathlib

set_option autoImplicit false

/-!
Shallow embedding of the image module of the tecli repository.

The embedded functions are the color formatter (the Display implementation),
the color parser (the FromStr implementation), color inversion, the text
layout measurement (text_dimensions), glyph drawing (draw_with_font), random
font selection (pick_random_font) and background seeding (seed).

Machine integers are modelled as Nat (u8, u16, usize) or Int (i32); the u8
subtraction in inverse never wraps on valid channels, which is recorded by an
explicit validity predicate.  Fallible operations return Option, Except or a
dedicated result type with an explicit constructor for a Rust panic.
-/

deriving instance DecidableEq for Except

/-- Color models the Rust struct Color(Rgb(u8)) : three 8-bit channels kept as
natural numbers.  The u8 range invariant is recorded by Color.Valid. -/
structure Color where
  r : Nat
  g : Nat
  b : Nat
  deriving DecidableEq

/-- Valid records the u8 range invariant of the three channels. -/
def Color.Valid (c : Color) : Prop :=
  c.r ≤ 255 ∧ c.g ≤ 255 ∧ c.b ≤ 255

/-- Color.inverse embeds the source method inverse : each channel is replaced
by 255 - channel.  On valid channels the u8 subtraction never wraps, so plain
truncated Nat subtraction is a faithful model there. -/
def Color.inverse (c : Color) : Color :=
  ⟨255 - c.r, 255 - c.g, 255 - c.b⟩

/-- Lowercase hexadecimal digits of a byte value, exactly as the Rust LowerHex
formatter prints a u8 : minimal width, so one digit when n < 16 and two digits
when 16 ≤ n < 256. -/
def hexByte (n : Nat) : List Char :=
  if n < 16 then [Nat.digitChar n]
  else [Nat.digitChar (n / 16), Nat.digitChar (n % 16)]

/-- Padding to field width 2 as the Rust format specifier of width 2 does for
numbers : right aligned, filled with the SPACE character (not zero). -/
def padWidth2 (l : List Char) : List Char :=
  List.replicate (2 - l.length) ' ' ++ l

/-- Color.fmt embeds the Display implementation, which writes a hash sign
followed by each channel under the format specifier of lowercase hex with
minimum field width 2 — space padded, NOT zero padded. -/
def Color.fmt (c : Color) : List Char :=
  '#' :: (padWidth2 (hexByte c.r) ++ padWidth2 (hexByte c.g) ++ padWidth2 (hexByte c.b))

/-- UTF-8 encoding of a list of ASCII characters as raw bytes.  The formatter
output is pure ASCII, where each character is exactly one byte. -/
def asciiBytes (l : List Char) : List Nat :=
  l.map Char.toNat

/-- Rust str::is_char_boundary on a byte buffer : index 0 and the length are
boundaries, an interior index is a boundary when the byte there is not a UTF-8
continuation byte, and an index past the end is not a boundary. -/
def isCharBoundary (s : List Nat) (i : Nat) : Bool :=
  i == 0 || i == s.length ||
    (decide (i < s.length) && !(decide (128 ≤ s.getD i 0) && decide (s.getD i 0 < 192)))

/-- Rust byte-range slicing of a string.  none models the panic that indexing
raises when the range is out of bounds, reversed, or cuts a character. -/
def sliceBytes (s : List Nat) (a b : Nat) : Option (List Nat) :=
  if a ≤ b ∧ isCharBoundary s a = true ∧ isCharBoundary s b = true then
    some ((s.drop a).take (b - a))
  else
    none

/-- Value of one ASCII byte as a base-16 digit, as char::to_digit(16) sees the
byte : decimal digits, lowercase a-f and uppercase A-F. -/
def hexDigitVal (b : Nat) : Option Nat :=
  if 48 ≤ b ∧ b ≤ 57 then some (b - 48)
  else if 97 ≤ b ∧ b ≤ 102 then some (b - 87)
  else if 65 ≤ b ∧ b ≤ 70 then some (b - 55)
  else none

/-- Whether a byte is a valid base-16 digit for char::to_digit(16). -/
def isHexDigitByte (b : Nat) : Bool :=
  (hexDigitVal b).isSome

/-- Digit-accumulation loop of u8::from_str_radix with radix 16 : each byte
must be a hex digit and the running value must stay in u8 range, otherwise the
parse errors (none). -/
def parseHexDigits : List Nat → Nat → Option Nat
  | [], acc => some acc
  | d :: rest, acc =>
    match hexDigitVal d with
    | none => none
    | some v =>
      if 256 ≤ acc * 16 + v then none
      else parseHexDigits rest (acc * 16 + v)

/-- u8::from_str_radix with radix 16 on a byte buffer.  An empty string or a
lone sign errors; a leading plus sign is skipped; a leading minus sign is an
invalid digit for an unsigned target and errors inside the digit loop. -/
def fromStrRadix16u8 (s : List Nat) : Option Nat :=
  match s with
  | [] => none
  | b :: rest =>
    if b = 43 then
      match rest with
      | [] => none
      | _ => parseHexDigits rest 0
    else
      parseHexDigits (b :: rest) 0

/-- str::trim_matches with the hash character : removes every leading AND
every trailing hash byte (35). -/
def trimHash (s : List Nat) : List Nat :=
  ((s.dropWhile (fun b => b == 35)).reverse.dropWhile (fun b => b == 35)).reverse

/-- Result of running the color parser : a parsed color, a parse error
(Err of ParseIntError in the source), or a Rust panic. -/
inductive ColorParseResult where
  | ok (c : Color)
  | err
  | panics
  deriving DecidableEq

/-- Body of the FromStr implementation after the hash trim reassigned s :
slice bytes 0..2, 2..4 and 4..6 (each slice panics when out of bounds), and
feed each slice to u8::from_str_radix with radix 16, propagating its error.
Slicing and parsing are interleaved in source order. -/
def parseTrimmed (s : List Nat) : ColorParseResult :=
  match sliceBytes s 0 2 with
  | none => .panics
  | some s01 =>
    match fromStrRadix16u8 s01 with
    | none => .err
    | some r =>
      match sliceBytes s 2 4 with
      | none => .panics
      | some s23 =>
        match fromStrRadix16u8 s23 with
        | none => .err
        | some g =>
          match sliceBytes s 4 6 with
          | none => .panics
          | some s45 =>
            match fromStrRadix16u8 s45 with
            | none => .err
            | some b => .ok ⟨r, g, b⟩

/-- Color.from_str embeds the FromStr implementation : trim hash bytes from
both ends of the input, then run the slicing and parsing chain on the
trimmed remainder. -/
def Color.from_str (input : List Nat) : ColorParseResult :=
  parseTrimmed (trimHash input)

/-- Numeric value of a two-hex-digit byte pair, used to state what the parser
decodes. -/
def hexPair (a b : Nat) : Nat :=
  16 * (hexDigitVal a).getD 0 + (hexDigitVal b).getD 0

/-- Glyph identifiers are opaque numbers (u32 in font-kit). -/
abbrev GlyphId := Nat

/-- TextError embeds the error enum of the text module.  The payloads of the
selection, loading and glyph-loading variants are opaque library errors and
are dropped; the missing-glyph variant keeps its character payload. -/
inductive TextError where
  | fontSelectionError
  | fontLoadingError
  | glyphLoadingError
  | missingGlyphError (c : Char)
  deriving DecidableEq

/-- Canvas models font-kit Canvas::new(vec2i(w, h), Format::Rgba32); the pixel
contents live behind the abstract rasterization capability of the font. -/
structure Canvas where
  width : Int
  height : Int
  deriving DecidableEq

/-- Font models the loaded font-kit Font as the black-box capability the
engine consumes: character-to-glyph resolution, typographic bounds and advance
(both already converted to integers, mirroring the to_i32 truncation of the
bounds rectangle and the as-i32 truncation of the advance x component in the
source), and glyph rasterization into a canvas.  Fallible methods return
Except Unit, the unit error standing for the opaque GlyphLoadingError. -/
structure Font where
  glyph_for_char : Char → Option GlyphId
  typographic_bounds : GlyphId → Except Unit (Int × Int × Int × Int)
  advance : GlyphId → Except Unit Int
  rasterize_glyph : Canvas → GlyphId → Except Unit Canvas

/-- Loop body of text_dimensions : the four accumulator components are the
running bounding box (min x, min y, max x, max y, starting from the zero
rectangle) and the last argument is the cursor.  Per character the source
resolves the glyph (missing-glyph error), fetches the truncated typographic
bounds, expands the box, fetches the truncated advance and moves the cursor;
either fetch propagates a glyph-loading error. -/
def textDimLoop (font : Font) :
    List Char → Int → Int → Int → Int → Int → Except TextError (Int × Int)
  | [], minX, minY, maxX, maxY, _ => .ok (maxX - minX, maxY - minY)
  | ch :: rest, minX, minY, maxX, maxY, cursor =>
    match font.glyph_for_char ch with
    | none => .error (.missingGlyphError ch)
    | some glyph =>
      match font.typographic_bounds glyph with
      | .error _ => .error .glyphLoadingError
      | .ok (bMinX, bMinY, bMaxX, bMaxY) =>
        match font.advance glyph with
        | .error _ => .error .glyphLoadingError
        | .ok adv =>
          textDimLoop font rest (min minX (cursor + bMinX)) (min minY bMinY)
            (max maxX (cursor + bMaxX)) (max maxY bMaxY) (cursor + adv)

/-- text_dimensions embeds the source function of the same name : walk the
characters in iteration order from cursor 0 and the zero bounding box, and
return the final width and height. -/
def text_dimensions (s : List Char) (font : Font) : Except TextError (Int × Int) :=
  textDimLoop font s 0 0 0 0 0

/-- Drawing loop of draw_with_font : re-resolve each character (missing-glyph
error) and rasterize its glyph into the canvas, propagating a glyph-loading
error on rasterization failure. -/
def drawLoop (font : Font) : List Char → Canvas → Except TextError Unit
  | [], _ => .ok ()
  | ch :: rest, canvas =>
    match font.glyph_for_char ch with
    | none => .error (.missingGlyphError ch)
    | some glyph =>
      match font.rasterize_glyph canvas glyph with
      | .error _ => .error .glyphLoadingError
      | .ok canvas2 => drawLoop font rest canvas2

/-- draw_with_font embeds the source function : it first measures the string
with text_dimensions, propagating any error, then allocates a canvas of the
measured size and rasterizes every character into it. -/
def draw_with_font (s : List Char) (font : Font) : Except TextError Unit :=
  match text_dimensions s font with
  | .error e => .error e
  | .ok (w, h) => drawLoop font s ⟨w, h⟩

/-- Result of pick_random_font : a loaded font, a propagated load error, or a
Rust panic. -/
inductive FontPickResult (F : Type) where
  | ok (font : F)
  | err
  | panics
  deriving DecidableEq

/-- pick_random_font embeds the source function, parametrized by the already
enumerated handle list (the external SystemSource capability), the random
machine word drawn by rand::random, and the Font::from_handle loader.  The
source computes index % fonts.len(), which panics (remainder by zero) when
the enumeration is empty; otherwise it loads the handle at that index and
propagates a load failure. -/
def pick_random_font {H F : Type} (fonts : List H) (r : Nat)
    (from_handle : H → Except Unit F) : FontPickResult F :=
  if h : fonts.length = 0 then .panics
  else
    match from_handle (fonts.get ⟨r % fonts.length, Nat.mod_lt r (Nat.pos_of_ne_zero h)⟩) with
    | .error _ => .err
    | .ok f => .ok f

/-- Per-glyph metrics as the layout walk consumes them : integer bounds and
integer advance width. -/
structure GlyphMetrics where
  minX : Int
  minY : Int
  maxX : Int
  maxY : Int
  advanceWidth : Int
  deriving DecidableEq

/-- Resolution of a single character to its glyph metrics, with the same error
order as one iteration of the measurement loop : missing glyph first, then
bounds, then advance. -/
def resolveChar (font : Font) (ch : Char) : Except TextError GlyphMetrics :=
  match font.glyph_for_char ch with
  | none => .error (.missingGlyphError ch)
  | some glyph =>
    match font.typographic_bounds glyph with
    | .error _ => .error .glyphLoadingError
    | .ok (bMinX, bMinY, bMaxX, bMaxY) =>
      match font.advance glyph with
      | .error _ => .error .glyphLoadingError
      | .ok adv => .ok ⟨bMinX, bMinY, bMaxX, bMaxY, adv⟩

/-- Resolution of every character of a string, left to right, stopping at the
first failure. -/
def resolveText (font : Font) : List Char → Except TextError (List GlyphMetrics)
  | [] => .ok []
  | ch :: rest =>
    match resolveChar font ch with
    | .error e => .error e
    | .ok m =>
      match resolveText font rest with
      | .error e => .error e
      | .ok ms => .ok (m :: ms)

/-- Whether a single character fully resolves (glyph, bounds and advance all
available). -/
def resolves (font : Font) (ch : Char) : Bool :=
  match resolveChar font ch with
  | .ok _ => true
  | .error _ => false

/-- Running bounding box of the layout walk. -/
structure BBox where
  minX : Int
  minY : Int
  maxX : Int
  maxY : Int
  deriving DecidableEq

/-- One bounding-box expansion step of the specified measurement algorithm :
min x and max x are shifted by the cursor, min y and max y are not. -/
def expandBox (box : BBox) (cursor : Int) (m : GlyphMetrics) : BBox :=
  ⟨min box.minX (cursor + m.minX), min box.minY m.minY,
   max box.maxX (cursor + m.maxX), max box.maxY m.maxY⟩

/-- measureSpec restates the specified measurement algorithm in its own words,
to be compared with text_dimensions : resolve the characters in iteration
order, fold the bounding-box expansion with a cursor advanced by each glyph's
integer advance from cursor 0 and the empty (zero) box, and return the final
width and height. -/
def measureSpec (s : List Char) (font : Font) : Except TextError (Int × Int) :=
  match resolveText font s with
  | .error e => .error e
  | .ok ms =>
    let fin := ms.foldl (fun st m => (expandBox st.1 st.2 m, st.2 + m.advanceWidth)) (⟨0, 0, 0, 0⟩, 0)
    .ok (fin.1.maxX - fin.1.minX, fin.1.maxY - fin.1.minY)

/-- Image models an image::RgbImage buffer : explicit dimensions and the
row-major pixel data. -/
structure Image where
  width : Nat
  height : Nat
  data : List Color
  deriving DecidableEq

/-- RgbImage::from_pixel : a width times height buffer uniformly filled with
one pixel value. -/
def from_pixel (w h : Nat) (c : Color) : Image :=
  ⟨w, h, List.replicate (w * h) c⟩

/-- Arguments of the seed subcommand (width and height are u16 in the source,
losslessly widened to u32 at the allocation site). -/
structure SeedArgs where
  width : Nat
  height : Nat
  background : Color

/-- seed embeds the source seed function up to the external text-drawing call:
it allocates a width times height buffer uniformly filled with the background
color, then hands that buffer, the inverse of the background as the paint
color, and the half-dimension anchor point to imageproc draw_text_mut, which
is modelled as an abstract parameter. -/
def seed (draw_text_mut : Image → Color → Int → Int → Image) (args : SeedArgs) : Image :=
  draw_text_mut (from_pixel args.width args.height args.background)
    args.background.inverse (Int.ofNat (args.width / 2)) (Int.ofNat (args.height / 2))

/-- Concrete font whose only glyph (for the character a) has well-defined
metrics; every other character is missing. -/
def fontSimple : Font :=
  ⟨fun ch => if ch = 'a' then some 0 else none,
   fun _ => .ok (-1, -2, 3, 4),
   fun _ => .ok 6,
   fun c _ => .ok c⟩

/-- Concrete font where the character a has a glyph whose typographic bounds
fail to load, and the character b has no glyph at all. -/
def fontBadMetrics : Font :=
  ⟨fun ch => if ch = 'a' then some 0 else none,
   fun _ => .error (),
   fun _ => .ok 0,
   fun c _ => .ok c⟩

/-! Helper lemmas about hex digits, slicing and boundaries. -/

theorem hexDigitVal_le15 {x d : Nat} (h : hexDigitVal x = some d) : d ≤ 15 := by
  unfold hexDigitVal at h
  split at h
  · injection h with h2
    omega
  · split at h
    · injection h with h2
      omega
    · split at h
      · injection h with h2
        omega
      · cases h

theorem hexDigitByte_range {x : Nat} (h : isHexDigitByte x = true) : 48 ≤ x ∧ x < 128 := by
  unfold isHexDigitByte hexDigitVal at h
  split at h
  · omega
  · split at h
    · omega
    · split at h
      · omega
      · simp at h

theorem isHexDigitByte_some {x : Nat} (h : isHexDigitByte x = true) :
    ∃ d, hexDigitVal x = some d := by
  unfold isHexDigitByte at h
  exact Option.isSome_iff_exists.mp h

theorem fromStrRadix_pair {a b : Nat} (ha : isHexDigitByte a = true)
    (hb : isHexDigitByte b = true) : fromStrRadix16u8 [a, b] = some (hexPair a b) := by
  obtain ⟨da, hda⟩ := isHexDigitByte_some ha
  obtain ⟨db, hdb⟩ := isHexDigitByte_some hb
  have hda15 := hexDigitVal_le15 hda
  have hdb15 := hexDigitVal_le15 hdb
  have hane : ¬(a = 43) := by
    have := hexDigitByte_range ha
    omega
  simp only [fromStrRadix16u8]
  rw [if_neg hane]
  simp only [parseHexDigits, hda, hdb]
  rw [if_neg (by omega)]
  rw [if_neg (by omega)]
  simp only [hexPair, hda, hdb, Option.getD_some]
  congr 1
  omega

theorem isCharBoundary_zero (t : List Nat) : isCharBoundary t 0 = true := by
  unfold isCharBoundary
  simp

theorem isCharBoundary_of_hex {t : List Nat} {i : Nat} (hi : i < t.length)
    (hx : isHexDigitByte (t.getD i 0) = true) : isCharBoundary t i = true := by
  unfold isCharBoundary
  have hr := hexDigitByte_range hx
  have h1 : decide (i < t.length) = true := by simpa using hi
  have h2 : decide (128 ≤ t.getD i 0) = false := by
    simp only [decide_eq_false_iff_not]
    omega
  rw [h1, h2]
  simp


theorem isCharBoundary_len (t : List Nat) : isCharBoundary t t.length = true := by
  unfold isCharBoundary
  simp

theorem sliceBytes_oob (t : List Nat) (a b : Nat) (h : t.length < b) :
    sliceBytes t a b = none := by
  unfold sliceBytes
  rw [if_neg]
  intro hcond
  obtain ⟨h1, h2, h3⟩ := hcond
  unfold isCharBoundary at h3
  simp only [Bool.or_eq_true, beq_iff_eq, Bool.and_eq_true, decide_eq_true_eq] at h3
  rcases h3 with (h3 | h3) | ⟨h3, h4⟩ <;> omega

/-- C4 (amended): Color parsing strips all leading and trailing hash bytes and
then works on the remainder's bytes.  First clause: when the remainder starts
with six hex-digit bytes and byte index 6 does not split a multi-byte
character (automatic for valid UTF-8 input), parsing succeeds with the three
decoded 2-digit pairs, ignoring everything after the sixth byte.  Second
clause: when the remainder is shorter than 6 bytes and all of its bytes are
hex digits, every in-bounds pair decodes, so parsing reaches an out-of-bounds
slice and panics instead of returning an error.  Third clause: when the
remainder has at least 2 bytes, byte index 2 does not split a character, and
the first pair is not valid hex, parsing returns a parse error before it
reaches any out-of-bounds slice. -/
theorem from_str_spec (s : List Nat) :
    (∀ t0 t1 t2 t3 t4 t5 rest, trimHash s = t0 :: t1 :: t2 :: t3 :: t4 :: t5 :: rest →
      isHexDigitByte t0 = true → isHexDigitByte t1 = true → isHexDigitByte t2 = true →
      isHexDigitByte t3 = true → isHexDigitByte t4 = true → isHexDigitByte t5 = true →
      isCharBoundary (trimHash s) 6 = true →
      Color.from_str s = .ok ⟨hexPair t0 t1, hexPair t2 t3, hexPair t4 t5⟩) ∧
    ((trimHash s).length < 6 → (∀ x ∈ trimHash s, isHexDigitByte x = true) →
      Color.from_str s = .panics) ∧
    (∀ t0 t1 rest, trimHash s = t0 :: t1 :: rest →
      isCharBoundary (trimHash s) 2 = true →
      fromStrRadix16u8 [t0, t1] = none →
      Color.from_str s = .err) := by
  refine ⟨?_, ?_, ?_⟩
  · intro t0 t1 t2 t3 t4 t5 rest ht h0 h1 h2 h3 h4 h5 hb6
    have hlen : 6 ≤ (trimHash s).length := by
      rw [ht]
      simp only [List.length_cons]
      omega
    have hb2 : isCharBoundary (trimHash s) 2 = true := by
      apply isCharBoundary_of_hex (by omega)
      rw [ht]
      exact h2
    have hb4 : isCharBoundary (trimHash s) 4 = true := by
      apply isCharBoundary_of_hex (by omega)
      rw [ht]
      exact h4
    have hs1 : sliceBytes (trimHash s) 0 2 = some [t0, t1] := by
      unfold sliceBytes
      rw [if_pos ⟨by omega, isCharBoundary_zero _, hb2⟩, ht]
      rfl
    have hs2 : sliceBytes (trimHash s) 2 4 = some [t2, t3] := by
      unfold sliceBytes
      rw [if_pos ⟨by omega, hb2, hb4⟩, ht]
      rfl
    have hs3 : sliceBytes (trimHash s) 4 6 = some [t4, t5] := by
      unfold sliceBytes
      rw [if_pos ⟨by omega, hb4, hb6⟩, ht]
      rfl
    show parseTrimmed (trimHash s) = _
    simp only [parseTrimmed, hs1, hs2, hs3, fromStrRadix_pair h0 h1, fromStrRadix_pair h2 h3,
      fromStrRadix_pair h4 h5]
  · intro hlen hhex
    show parseTrimmed (trimHash s) = .panics
    rcases ht : trimHash s with _ | ⟨a, _ | ⟨b, _ | ⟨c, _ | ⟨d, _ | ⟨e, rest⟩⟩⟩⟩⟩
    · simp only [parseTrimmed, sliceBytes_oob [] 0 2 (by decide)]
    · simp only [parseTrimmed, sliceBytes_oob [a] 0 2
        (by simp only [List.length_cons, List.length_nil]; omega)]
    · rw [ht] at hhex
      have ha := hhex a (by simp)
      have hb := hhex b (by simp)
      have h1 : sliceBytes [a, b] 0 2 = some [a, b] := by
        unfold sliceBytes
        rw [if_pos ⟨by omega, isCharBoundary_zero _, isCharBoundary_len [a, b]⟩]
        rfl
      simp only [parseTrimmed, h1, fromStrRadix_pair ha hb, sliceBytes_oob [a, b] 2 4
        (by simp only [List.length_cons, List.length_nil]; omega)]
    · rw [ht] at hhex
      have ha := hhex a (by simp)
      have hb := hhex b (by simp)
      have h1 : sliceBytes [a, b, c] 0 2 = some [a, b] := by
        unfold sliceBytes
        rw [if_pos ⟨by omega, isCharBoundary_zero _, isCharBoundary_of_hex
          (by simp only [List.length_cons, List.length_nil]; omega) (hhex c (by simp))⟩]
        rfl
      simp only [parseTrimmed, h1, fromStrRadix_pair ha hb, sliceBytes_oob [a, b, c] 2 4
        (by simp only [List.length_cons, List.length_nil]; omega)]
    · rw [ht] at hhex
      have ha := hhex a (by simp)
      have hb := hhex b (by simp)
      have hc := hhex c (by simp)
      have hd := hhex d (by simp)
      have hbnd2 : isCharBoundary [a, b, c, d] 2 = true :=
        isCharBoundary_of_hex (by simp only [List.length_cons, List.length_nil]; omega) hc
      have h1 : sliceBytes [a, b, c, d] 0 2 = some [a, b] := by
        unfold sliceBytes
        rw [if_pos ⟨by omega, isCharBoundary_zero _, hbnd2⟩]
        rfl
      have h2 : sliceBytes [a, b, c, d] 2 4 = some [c, d] := by
        unfold sliceBytes
        rw [if_pos ⟨by omega, hbnd2, isCharBoundary_len [a, b, c, d]⟩]
        rfl
      simp only [parseTrimmed, h1, fromStrRadix_pair ha hb, h2, fromStrRadix_pair hc hd,
        sliceBytes_oob [a, b, c, d] 4 6
          (by simp only [List.length_cons, List.length_nil]; omega)]
    · rcases rest with _ | ⟨f, rest⟩
      · rw [ht] at hhex
        have ha := hhex a (by simp)
        have hb := hhex b (by simp)
        have hc := hhex c (by simp)
        have hd := hhex d (by simp)
        have hbnd2 : isCharBoundary [a, b, c, d, e] 2 = true :=
          isCharBoundary_of_hex (by simp only [List.length_cons, List.length_nil]; omega) hc
        have hbnd4 : isCharBoundary [a, b, c, d, e] 4 = true :=
          isCharBoundary_of_hex (by simp only [List.length_cons, List.length_nil]; omega)
            (hhex e (by simp))
        have h1 : sliceBytes [a, b, c, d, e] 0 2 = some [a, b] := by
          unfold sliceBytes
          rw [if_pos ⟨by omega, isCharBoundary_zero _, hbnd2⟩]
          rfl
        have h2 : sliceBytes [a, b, c, d, e] 2 4 = some [c, d] := by
          unfold sliceBytes
          rw [if_pos ⟨by omega, hbnd2, hbnd4⟩]
          rfl
        simp only [parseTrimmed, h1, fromStrRadix_pair ha hb, h2, fromStrRadix_pair hc hd,
          sliceBytes_oob [a, b, c, d, e] 4 6
            (by simp only [List.length_cons, List.length_nil]; omega)]
      · rw [ht] at hlen
        simp only [List.length_cons] at hlen
        omega
  · intro t0 t1 rest ht hb2 hrad
    show parseTrimmed (trimHash s) = .err
    have hs1 : sliceBytes (trimHash s) 0 2 = some [t0, t1] := by
      unfold sliceBytes
      rw [if_pos ⟨by omega, isCharBoundary_zero _, hb2⟩, ht]
      rfl
    simp only [parseTrimmed, hs1, hrad]

/-- Witness for the amended C4 theorem : parsing the bytes of the text
hash-aabbcc succeeds with the decoded channels 170, 187, 204, and parsing the
2-byte non-hex remainder zz returns a parse error (not a panic). -/
theorem from_str_spec_witness :
    Color.from_str [35, 97, 97, 98, 98, 99, 99] = .ok ⟨170, 187, 204⟩ ∧
    Color.from_str [122, 122] = .err := by
  constructor
  · have h := (from_str_spec [35, 97, 97, 98, 98, 99, 99]).1 97 97 98 98 99 99 []
      (by decide) (by decide) (by decide) (by decide) (by decide) (by decide) (by decide)
      (by decide)
    simpa using h
  · exact (from_str_spec [122, 122]).2.2 122 122 [] (by decide) (by decide) (by decide)

/-- C4 counterexample : the claim says parsing succeeds exactly on 6
significant hex digits and never panics, but the code accepts the 8-digit
input aabbccdd (ignoring the trailing dd) and panics on the 5-byte input
12345. -/
theorem from_str_claim_false :
    Color.from_str [97, 97, 98, 98, 99, 99, 100, 100] = .ok ⟨170, 187, 204⟩ ∧
    Color.from_str [49, 50, 51, 52, 53] = .panics := by decide

/-- C2 (code bug): the round-trip law parse(format(c)) == c fails on the
color with all channels 5.  The Display implementation space-pads one-digit
channels (format specifier of width 2 without the zero flag), and the space
is not a valid hex digit for u8::from_str_radix, so parsing the formatted
text errors instead of returning the color. -/
theorem format_parse_roundtrip_fails :
    Color.from_str (asciiBytes ((Color.mk 5 5 5).fmt)) = .err ∧
    Color.from_str (asciiBytes ((Color.mk 5 5 5).fmt)) ≠ .ok (Color.mk 5 5 5) := by decide

/-- C3 (code bug): the claim says formatting always yields a hash sign and 6
zero-padded lowercase hex digits, but the format specifier of width 2 lacks
the zero flag, so the channel value 5 is rendered as a space followed by the
digit 5 instead of 05. -/
theorem format_space_pads_small_channel :
    (Color.mk 5 5 5).fmt = ['#', ' ', '5', ' ', '5', ' ', '5'] ∧
    (Color.mk 5 5 5).fmt ≠ ['#', '0', '5', '0', '5', '0', '5'] := by decide

/-- C7: inverse is an involution on every valid color (each channel at most
255), because 255 - (255 - x) = x when x ≤ 255. -/
theorem inverse_involution (c : Color) (h : c.Valid) : c.inverse.inverse = c := by
  obtain ⟨r, g, b⟩ := c
  dsimp only [Color.Valid] at h
  obtain ⟨hr, hg, hb⟩ := h
  dsimp only [Color.inverse]
  simp only [Color.mk.injEq]
  refine ⟨?_, ?_, ?_⟩ <;> omega

/-- Witness for the C7 theorem at the concrete valid color (5, 200, 17). -/
theorem inverse_involution_witness :
    (Color.mk 5 200 17).inverse.inverse = Color.mk 5 200 17 :=
  inverse_involution (Color.mk 5 200 17)
    (by dsimp only [Color.Valid]; refine ⟨?_, ?_, ?_⟩ <;> omega)

/-- C8: measuring the empty string with any font succeeds and returns the
zero-area box, width 0 and height 0. -/
theorem text_dimensions_empty (font : Font) : text_dimensions [] font = .ok (0, 0) := rfl

/-- C9: for every width, height and background color, seed allocates a buffer
of exactly width times height pixels, every one of them the background color,
and passes the inverse of the background as the paint color (together with the
half-dimension anchor) to the external text-drawing routine. -/
theorem seed_allocation (draw_text_mut : Image → Color → Int → Int → Image) (args : SeedArgs) :
    seed draw_text_mut args =
      draw_text_mut
        (Image.mk args.width args.height (List.replicate (args.width * args.height) args.background))
        args.background.inverse (Int.ofNat (args.width / 2)) (Int.ofNat (args.height / 2)) := rfl

theorem textDimLoop_eq_spec (font : Font) (s : List Char) :
    ∀ minX minY maxX maxY cursor,
      textDimLoop font s minX minY maxX maxY cursor =
        match resolveText font s with
        | .error e => .error e
        | .ok ms =>
          let fin := ms.foldl (fun st m => (expandBox st.1 st.2 m, st.2 + m.advanceWidth))
            (⟨minX, minY, maxX, maxY⟩, cursor)
          .ok (fin.1.maxX - fin.1.minX, fin.1.maxY - fin.1.minY) := by
  induction s with
  | nil =>
    intro minX minY maxX maxY cursor
    rfl
  | cons ch rest ih =>
    intro minX minY maxX maxY cursor
    cases hg : font.glyph_for_char ch with
    | none => simp only [textDimLoop, resolveText, resolveChar, hg]
    | some glyph =>
      cases hb : font.typographic_bounds glyph with
      | error e => simp only [textDimLoop, resolveText, resolveChar, hg, hb]
      | ok bounds =>
        obtain ⟨bMinX, bMinY, bMaxX, bMaxY⟩ := bounds
        cases ha : font.advance glyph with
        | error e => simp only [textDimLoop, resolveText, resolveChar, hg, hb, ha]
        | ok adv =>
          simp only [textDimLoop, resolveText, resolveChar, hg, hb, ha]
          rw [ih]
          cases hr : resolveText font rest with
          | error e => rfl
          | ok ms => rfl

/-- C1: text_dimensions computes exactly the specified measurement : resolve
each character in iteration order (failing at the first unresolvable one),
fold the bounding-box expansion over the glyph metrics with the cursor
starting at 0 and advanced by each glyph's integer-truncated advance width,
and return the final box's width and height. -/
theorem text_dimensions_matches_spec (s : List Char) (font : Font) :
    text_dimensions s font = measureSpec s font := by
  have h := textDimLoop_eq_spec font s 0 0 0 0 0
  unfold text_dimensions measureSpec
  exact h

theorem textDimLoop_box_nonneg (font : Font) (s : List Char) :
    ∀ minX minY maxX maxY cursor w h,
      minX ≤ 0 → 0 ≤ maxX → minY ≤ 0 → 0 ≤ maxY →
      textDimLoop font s minX minY maxX maxY cursor = .ok (w, h) →
      0 ≤ w ∧ 0 ≤ h := by
  induction s with
  | nil =>
    intro minX minY maxX maxY cursor w h h1 h2 h3 h4 heq
    simp only [textDimLoop, Except.ok.injEq, Prod.mk.injEq] at heq
    obtain ⟨hw, hh⟩ := heq
    omega
  | cons ch rest ih =>
    intro minX minY maxX maxY cursor w h h1 h2 h3 h4 heq
    cases hg : font.glyph_for_char ch with
    | none =>
      simp only [textDimLoop, hg] at heq
      cases heq
    | some glyph =>
      cases hb : font.typographic_bounds glyph with
      | error e =>
        simp only [textDimLoop, hg, hb] at heq
        cases heq
      | ok bounds =>
        obtain ⟨bMinX, bMinY, bMaxX, bMaxY⟩ := bounds
        cases ha : font.advance glyph with
        | error e =>
          simp only [textDimLoop, hg, hb, ha] at heq
          cases heq
        | ok adv =>
          simp only [textDimLoop, hg, hb, ha] at heq
          refine ih _ _ _ _ _ _ _ ?_ ?_ ?_ ?_ heq
          · exact le_trans inf_le_left h1
          · exact le_trans h2 le_sup_left
          · exact le_trans inf_le_left h3
          · exact le_trans h4 le_sup_left

/-- C10: whenever measurement succeeds, the returned width and height are
non-negative, because the running bounding box starts at the zero rectangle
and always contains the origin (mins only decrease, maxes only increase). -/
theorem text_dimensions_nonneg (s : List Char) (font : Font) (w h : Int)
    (heq : text_dimensions s font = .ok (w, h)) : 0 ≤ w ∧ 0 ≤ h :=
  textDimLoop_box_nonneg font s 0 0 0 0 0 w h le_rfl le_rfl le_rfl le_rfl heq

/-- Witness for the C10 theorem : the one-glyph font measures the string a
with the non-negative dimensions 4 by 6. -/
theorem text_dimensions_nonneg_witness : (0 : Int) ≤ 4 ∧ (0 : Int) ≤ 6 :=
  text_dimensions_nonneg ['a'] fontSimple 4 6 (by decide)

theorem resolves_ok {font : Font} {ch : Char} (h : resolves font ch = true) :
    ∃ m, resolveChar font ch = .ok m := by
  unfold resolves at h
  cases hr : resolveChar font ch with
  | ok m => exact ⟨m, rfl⟩
  | error e =>
    rw [hr] at h
    cases h

theorem resolveChar_ok_components {font : Font} {ch : Char} {m : GlyphMetrics}
    (h : resolveChar font ch = .ok m) :
    ∃ glyph, font.glyph_for_char ch = some glyph ∧
      font.typographic_bounds glyph = .ok (m.minX, m.minY, m.maxX, m.maxY) ∧
      font.advance glyph = .ok m.advanceWidth := by
  cases hg : font.glyph_for_char ch with
  | none =>
    simp only [resolveChar, hg] at h
    cases h
  | some glyph =>
    cases hb : font.typographic_bounds glyph with
    | error e =>
      simp only [resolveChar, hg, hb] at h
      cases h
    | ok bounds =>
      obtain ⟨a, b, c, d⟩ := bounds
      cases ha : font.advance glyph with
      | error e =>
        simp only [resolveChar, hg, hb, ha] at h
        cases h
      | ok adv =>
        simp only [resolveChar, hg, hb, ha] at h
        injection h with h2
        subst h2
        exact ⟨glyph, rfl, hb, ha⟩

theorem textDimLoop_missing (font : Font) (c : Char) (post : List Char)
    (hc : font.glyph_for_char c = none) :
    ∀ pre, (∀ ch ∈ pre, resolves font ch = true) →
      ∀ minX minY maxX maxY cursor,
        textDimLoop font (pre ++ c :: post) minX minY maxX maxY cursor =
          .error (.missingGlyphError c) := by
  intro pre
  induction pre with
  | nil =>
    intro _ minX minY maxX maxY cursor
    simp only [List.nil_append, textDimLoop, hc]
  | cons ch pre ih =>
    intro hres minX minY maxX maxY cursor
    have hch := hres ch (List.mem_cons_self _ _)
    obtain ⟨m, hm⟩ := resolves_ok hch
    obtain ⟨glyph, hg, hb, ha⟩ := resolveChar_ok_components hm
    simp only [List.cons_append, textDimLoop, hg, hb, ha]
    exact ih (fun x hx => hres x (List.mem_cons_of_mem _ hx)) _ _ _ _ _

/-- C6 (amended): whenever measurement fails, draw_with_font fails with the
identical error value, because it runs text_dimensions first and propagates
its error.  In particular, when every character before some glyph-less
character fully resolves (glyph, bounds and advance all available), both
functions fail with the missing-glyph error naming that same character, with
no skip or substitution.  (When an earlier character's metrics retrieval
fails, both functions instead fail with that glyph-loading error.) -/
theorem draw_measure_agree (s : List Char) (font : Font) :
    (∀ e, text_dimensions s font = .error e → draw_with_font s font = .error e) ∧
    (∀ pre c post, s = pre ++ c :: post →
      (∀ ch ∈ pre, resolves font ch = true) →
      font.glyph_for_char c = none →
      text_dimensions s font = .error (.missingGlyphError c) ∧
      draw_with_font s font = .error (.missingGlyphError c)) := by
  have hprop : ∀ e, text_dimensions s font = .error e → draw_with_font s font = .error e := by
    intro e he
    unfold draw_with_font
    rw [he]
  refine ⟨hprop, ?_⟩
  intro pre c post hs hres hc
  subst hs
  have hmeas : text_dimensions (pre ++ c :: post) font = .error (.missingGlyphError c) :=
    textDimLoop_missing font c post hc pre hres 0 0 0 0 0
  exact ⟨hmeas, hprop _ hmeas⟩

/-- Witness for the amended C6 theorem : in the one-glyph font the string ax
has its first glyph-less character x, and measurement and drawing report the
identical missing-glyph error for x. -/
theorem draw_measure_agree_witness :
    text_dimensions ['a', 'x'] fontSimple = .error (.missingGlyphError 'x') ∧
    draw_with_font ['a', 'x'] fontSimple = .error (.missingGlyphError 'x') :=
  (draw_measure_agree ['a', 'x'] fontSimple).2 ['a'] 'x' [] rfl (by decide) (by decide)

/-- C6 counterexample : in the font where the character a has a glyph whose
bounds fail to load and the character b has no glyph, the string ab contains
a glyph-less character, yet drawing fails with the glyph-loading error rather
than the missing-glyph error the claim requires. -/
theorem draw_missing_glyph_claim_false :
    fontBadMetrics.glyph_for_char 'b' = none ∧
    draw_with_font ['a', 'b'] fontBadMetrics = .error .glyphLoadingError ∧
    draw_with_font ['a', 'b'] fontBadMetrics ≠ .error (.missingGlyphError 'b') := by decide

/-- C5 (amended): with the enumerated handle list, the random machine word r
and the loader as inputs, pick_random_font panics (remainder by zero) when the
enumeration is empty, and otherwise returns the result of loading the handle
at index r modulo the list length — the loaded font on success, the
propagated error on load failure. -/
theorem pick_random_font_spec {H F : Type} (fonts : List H) (r : Nat)
    (from_handle : H → Except Unit F) :
    (fonts = [] → pick_random_font fonts r from_handle = .panics) ∧
    (∀ hdl, fonts.get? (r % fonts.length) = some hdl →
      pick_random_font fonts r from_handle =
        match from_handle hdl with
        | .ok f => .ok f
        | .error _ => .err) := by
  constructor
  · intro h
    subst h
    rfl
  · intro hdl hh
    have hne : fonts.length ≠ 0 := by
      intro h0
      rw [List.length_eq_zero] at h0
      subst h0
      simp at hh
    have hlt : r % fonts.length < fonts.length := Nat.mod_lt r (Nat.pos_of_ne_zero hne)
    have hget : fonts.get ⟨r % fonts.length, hlt⟩ = hdl := by
      rw [List.get?_eq_get hlt] at hh
      injection hh
    unfold pick_random_font
    rw [dif_neg hne, hget]
    cases from_handle hdl with
    | ok f => rfl
    | error e => rfl

/-- Witness for the amended C5 theorem : with three handles and the random
word 7, index 7 mod 3 = 1 is selected and the identity loader returns the
second handle. -/
theorem pick_random_font_spec_witness :
    pick_random_font [10, 20, 30] 7 (Except.ok : Nat → Except Unit Nat) = .ok 20 := by
  have h := (pick_random_font_spec [10, 20, 30] 7 Except.ok).2 20 (by decide)
  simpa using h

/-- C5 counterexample : on the empty enumeration the code computes a remainder
by zero, so the model panics instead of returning the no-fonts error the
claim requires. -/
theorem pick_random_font_empty_panics :
    pick_random_font ([] : List Nat) 0 (Except.ok : Nat → Except Unit Nat) = .panics ∧
    (FontPickResult.panics : FontPickResult Nat) ≠ .err := by decide
